import Mathlib

/-!
Shallow embedding of the csv-service job pipeline.

Source files embedded here:
  * src/utils/validators.ts (customerRowSchema)
  * src/services/csv.service.ts (normalizeRow, countRows, processFile,
    DEFAULT_PROGRESS_EVERY, DEFAULT_MAX_ERRORS)
  * src/services/jobs.service.ts (processCsvJob, persistProgress, safeDelete,
    buildJobErrorReport, sanitizeFilename)
  * src/services/sse.service.ts (addClient, broadcast, broadcastAndClose)
  * src/controllers/jobs.controller.ts (streamJob, isTerminal, toProgressPayload)
  * src/queue/InMemoryJobQueue.ts (InMemoryJobQueue)

External collaborators (MongoDB via mongoose, the zod email format check, the
node stream machinery) are modelled as explicit inputs: the per row insert
outcome of Customer.create is an oracle value, the zod email predicate is a
parameter, and file reading is a list of parsed rows plus optional stream
failure points. Machine integers are Nat (counters are small non negative
integers in the source).
-/

deriving instance DecidableEq for Except

namespace CsvService

/-- String.prototype.trim of the runtime: strip whitespace from both ends
(the row values are ordinary ASCII text). -/
def jsTrim (s : String) : String :=
  ⟨((s.data.dropWhile Char.isWhitespace).reverse.dropWhile Char.isWhitespace).reverse⟩

/-- String.prototype.toLowerCase of the runtime on the row values. -/
def strLower (s : String) : String := ⟨s.data.map Char.toLower⟩

/-- Raw record delivered by the csv-parser stream for one data row: each
header field may be absent (undefined) or present as a string. -/
structure RawRow where
  name : Option String
  email : Option String
  phone : Option String
  company : Option String
deriving DecidableEq

/-- Normalized and validated shape of one row, also the shape zod returns on
success ({name, email, phone, company}, all strings). -/
structure CustomerRow where
  name : String
  email : String
  phone : String
  company : String
deriving DecidableEq

/-- normalizeRow from csv.service.ts: coalesce missing fields to the empty
string, trim each field, lowercase the email. -/
def normalizeRow (raw : RawRow) : CustomerRow :=
  { name := jsTrim (raw.name.getD "")
    email := strLower (jsTrim (raw.email.getD ""))
    phone := jsTrim (raw.phone.getD "")
    company := jsTrim (raw.company.getD "") }

/-- Issue messages produced by customerRowSchema (src/utils/validators.ts) in
zod field order name, email, phone, company; phone is
z.string().optional().default("") and never yields an issue. The zod email
format check is external library code, abstracted as the parameter
emailValid. -/
def schemaIssues (emailValid : String → Bool) (r : CustomerRow) : List String :=
  (if jsTrim r.name = "" then ["name is required"] else []) ++
  (if emailValid (jsTrim r.email) then [] else ["invalid email"]) ++
  (if jsTrim r.company = "" then ["company is required"] else [])

/-- customerRowSchema.safeParse: either the list of issue messages or the
parsed data (trimmed name, email, company; phone passed through). -/
def customerRowSchema (emailValid : String → Bool) (r : CustomerRow) :
    Except (List String) CustomerRow :=
  if (schemaIssues emailValid r).isEmpty then
    Except.ok { name := jsTrim r.name, email := jsTrim r.email,
                phone := r.phone, company := jsTrim r.company }
  else Except.error (schemaIssues emailValid r)

/-- Persisted customer record (src/models/Customer.ts), phone optional. -/
structure Customer where
  name : String
  email : String
  phone : Option String
  company : String
  jobId : String
deriving DecidableEq

/-- The Customer.create call in processFile passes
phone: parsed.data.phone || undefined, so an empty string becomes an absent
field. -/
def mkCustomer (jobId : String) (data : CustomerRow) : Customer :=
  { name := data.name, email := data.email,
    phone := if data.phone = "" then none else some data.phone,
    company := data.company, jobId := jobId }

/-- Outcome of one Customer.create call, decided by the external record
store: success, duplicate key error (code 11000), or any other failure. -/
inductive InsertOutcome where
  | ok
  | dupKey
  | dbError
deriving DecidableEq

/-- The payload stored on an error record: the raw row for validation
failures, the parsed data for insert failures. -/
inductive ErrRowPayload where
  | rawRow (r : RawRow)
  | parsedRow (c : CustomerRow)
deriving DecidableEq

/-- JobError from src/models/Job.ts: rowNumber, message, optional row
payload. -/
structure JobError where
  rowNumber : Nat
  message : String
  row : Option ErrRowPayload
deriving DecidableEq

/-- CsvProgress from csv.service.ts. -/
structure CsvProgress where
  totalRows : Nat
  processedRows : Nat
  successCount : Nat
  failedCount : Nat
  errors : List JobError
  lastError : Option String
deriving DecidableEq

def DEFAULT_PROGRESS_EVERY : Nat := 25

def DEFAULT_MAX_ERRORS : Nat := 50

/-- The progressEvery / maxErrors options of processFile. -/
structure ProcCfg where
  progressEvery : Nat
  maxErrors : Nat
deriving DecidableEq

/-- processCsvJob passes neither option, so both defaults apply. -/
def defaultCfg : ProcCfg :=
  { progressEvery := DEFAULT_PROGRESS_EVERY, maxErrors := DEFAULT_MAX_ERRORS }

/-- One data row as the second pass sees it: the parsed raw record plus the
record store outcome the insert would get (used only when the row is
valid). -/
structure RowInput where
  raw : RawRow
  insert : InsertOutcome
deriving DecidableEq

/-- One file as both streaming passes observe it. countError simulates a
first pass stream failure; streamErrorAfter k msg simulates the second pass
stream failing after k rows were delivered. Both passes parse the same
unchanged temp file, hence the single rows list. -/
structure FileInput where
  rows : List RowInput
  countError : Option String
  streamErrorAfter : Option (Nat × String)
deriving DecidableEq

/-- Running state of the processFile loop: current progress, the 1-based
currentRow counter, the record store contents, and the list of onProgress
emissions so far (each emission is one persistProgress save point). -/
structure ProcState where
  progress : CsvProgress
  currentRow : Nat
  customers : List Customer
  emissions : List CsvProgress
deriving DecidableEq

/-- emitProgress: onProgress fires when forced or when processedRows is a
multiple of progressEvery. -/
def emit (cfg : ProcCfg) (force : Bool) (st : ProcState) : ProcState :=
  if force || st.progress.processedRows % cfg.progressEvery == 0 then
    { st with emissions := st.emissions ++ [st.progress] }
  else st

/-- The issues.map(i => i.message).join(", ") of the error branches. -/
def joinIssues : List String → String
  | [] => ""
  | [m] => m
  | m :: rest => m ++ ", " ++ joinIssues rest

/-- The shared shape of the three failing branches of the loop body:
failedCount and processedRows both increase by one, lastError takes the
message, the error record is appended only while the list length is below
maxErrors, currentRow advances, then emitProgress. -/
def recordFailure (cfg : ProcCfg) (st : ProcState) (message : String)
    (payload : ErrRowPayload) : ProcState :=
  let p := st.progress
  let errs :=
    if p.errors.length < cfg.maxErrors then
      p.errors ++ [⟨st.currentRow, message, some payload⟩]
    else p.errors
  emit cfg false
    { st with
        progress := { p with failedCount := p.failedCount + 1,
                             processedRows := p.processedRows + 1,
                             lastError := some message,
                             errors := errs }
        currentRow := st.currentRow + 1 }

/-- Body of the for-await loop of processFile for one row: validate, then
either record the validation failure, insert the customer, or record the
insert failure (code 11000 as the uniqueness message, anything else as the
generic insert message); a success bumps successCount; processedRows and
currentRow always advance, then emitProgress. -/
def procStep (emailValid : String → Bool) (cfg : ProcCfg) (jobId : String)
    (st : ProcState) (inp : RowInput) : ProcState :=
  match customerRowSchema emailValid (normalizeRow inp.raw) with
  | Except.error issues =>
      recordFailure cfg st (joinIssues issues) (ErrRowPayload.rawRow inp.raw)
  | Except.ok data =>
      match inp.insert with
      | InsertOutcome.ok =>
          let p := st.progress
          emit cfg false
            { st with
                progress := { p with successCount := p.successCount + 1,
                                     processedRows := p.processedRows + 1 }
                currentRow := st.currentRow + 1
                customers := st.customers ++ [mkCustomer jobId data] }
      | InsertOutcome.dupKey =>
          recordFailure cfg st "email must be unique" (ErrRowPayload.parsedRow data)
      | InsertOutcome.dbError =>
          recordFailure cfg st "failed to insert customer" (ErrRowPayload.parsedRow data)

/-- The loop of processFile over the rows the stream delivers. -/
def procLoop (emailValid : String → Bool) (cfg : ProcCfg) (jobId : String)
    (st : ProcState) (rows : List RowInput) : ProcState :=
  rows.foldl (procStep emailValid cfg jobId) st

/-- Result of a whole processFile call: the onProgress emissions in order,
the returned progress or the thrown fatal error, and the record store
contents. -/
structure ProcResult where
  emissions : List CsvProgress
  result : Except String CsvProgress
  customers : List Customer

/-- State right after the first counting pass succeeded with n data rows:
fresh progress carrying totalRows = n, currentRow 1, and the forced initial
emission. -/
def initialState (cfg : ProcCfg) (n : Nat) (customers0 : List Customer) : ProcState :=
  emit cfg true
    { progress := { totalRows := n, processedRows := 0, successCount := 0,
                    failedCount := 0, errors := [], lastError := none },
      currentRow := 1, customers := customers0, emissions := [] }

/-- The clean path of processFile: stream every row, then a forced final
emission, returning the progress. -/
def runOkBranch (emailValid : String → Bool) (cfg : ProcCfg) (jobId : String)
    (rows : List RowInput) (customers0 : List Customer) : ProcResult :=
  let st := procLoop emailValid cfg jobId (initialState cfg rows.length customers0) rows
  ⟨(emit cfg true st).emissions, Except.ok st.progress, st.customers⟩

/-- The fatal path of processFile: the stream dies after k rows; the catch
block sets lastError, forces an emission and rethrows. -/
def runErrBranch (emailValid : String → Bool) (cfg : ProcCfg) (jobId : String)
    (rows : List RowInput) (k : Nat) (msg : String) (customers0 : List Customer) : ProcResult :=
  let st := procLoop emailValid cfg jobId (initialState cfg rows.length customers0) (rows.take k)
  let stE := { st with progress := { st.progress with lastError := some msg } }
  ⟨(emit cfg true stE).emissions, Except.error msg, stE.customers⟩

/-- processFile from csv.service.ts: first pass counts the rows (countRows,
failing when the first stream fails), then the second pass streams the same
rows. -/
def processFileRun (emailValid : String → Bool) (cfg : ProcCfg) (jobId : String)
    (file : FileInput) (customers0 : List Customer) : ProcResult :=
  match file.countError with
  | some msg => ⟨[], Except.error msg, customers0⟩
  | none =>
    match file.streamErrorAfter with
    | none => runOkBranch emailValid cfg jobId file.rows customers0
    | some (k, msg) => runErrBranch emailValid cfg jobId file.rows k msg customers0

/-! Job store model (src/models/Job.ts plus the fields jobs.service.ts
maintains on the hydrated document). createdAt, startedAt and completedAt are
Date values; only their presence matters to the claims, so startedAt and
completedAt are Bool presence flags. -/

inductive JobStatus where
  | pending
  | processing
  | completed
  | failed
deriving DecidableEq

structure JobRec where
  filename : String
  status : JobStatus
  totalRows : Nat
  processedRows : Nat
  successCount : Nat
  failedCount : Nat
  errors : List JobError
  lastError : Option String
  startedAt : Bool
  completedAt : Bool
deriving DecidableEq

/-- The job a fresh upload creates (createPendingJob in jobs.service.ts). -/
def pendingJob (filename : String) : JobRec :=
  { filename := filename, status := JobStatus.pending, totalRows := 0,
    processedRows := 0, successCount := 0, failedCount := 0, errors := [],
    lastError := none, startedAt := false, completedAt := false }

/-- Job.findById over the job store, modelled as an association list. -/
def storeFind (jobs : List (String × JobRec)) (id : String) : Option JobRec :=
  (jobs.find? (fun kv => kv.fst = id)).map (fun kv => kv.snd)

/-- job.save persisting the mutated document under its id. -/
def storeSave (jobs : List (String × JobRec)) (id : String) (j : JobRec) :
    List (String × JobRec) :=
  match jobs with
  | [] => [(id, j)]
  | kv :: rest =>
      if kv.fst = id then (id, j) :: rest else kv :: storeSave rest id j

/-- The progress snapshot payload built by toProgress in jobs.service.ts
(errorCount is the length of the retained error list, not the list). -/
structure ProgressPayload where
  jobId : String
  filename : String
  status : JobStatus
  totalRows : Nat
  processedRows : Nat
  successCount : Nat
  failedCount : Nat
  errorCount : Nat
  startedAt : Bool
  completedAt : Bool
  lastError : Option String
deriving DecidableEq

def toProgress (jobId : String) (j : JobRec) : ProgressPayload :=
  { jobId := jobId, filename := j.filename, status := j.status,
    totalRows := j.totalRows, processedRows := j.processedRows,
    successCount := j.successCount, failedCount := j.failedCount,
    errorCount := j.errors.length, startedAt := j.startedAt,
    completedAt := j.completedAt, lastError := j.lastError }

/-- Events published through the progress broadcaster (broadcast and
broadcastAndClose calls), in publish order. -/
inductive SseEvent where
  | progress (jobId : String) (payload : ProgressPayload)
  | done (jobId : String) (status : JobStatus)
deriving DecidableEq

/-- persistProgress copies every progress field onto the job document before
saving it. -/
def applyProgress (j : JobRec) (p : CsvProgress) : JobRec :=
  { j with totalRows := p.totalRows, processedRows := p.processedRows,
           successCount := p.successCount, failedCount := p.failedCount,
           errors := p.errors, lastError := p.lastError }

/-- The mutation processCsvJob performs before streaming: status processing,
startedAt set, completedAt and lastError cleared. -/
def startJob (j0 : JobRec) : JobRec :=
  { j0 with status := JobStatus.processing, startedAt := true,
            completedAt := false, lastError := none }

/-- Terminal update on success: status completed, completedAt set, then the
final persistProgress with the returned progress. -/
def finishOk (j1 : JobRec) (p : CsvProgress) : JobRec :=
  applyProgress { j1 with status := JobStatus.completed, completedAt := true } p

/-- Terminal update on a fatal error: the document still carries the last
persisted progress (the forced emission of the processFile catch when one
happened); the catch then sets status failed, completedAt and lastError. No
error record is appended here. -/
def finishFail (j1 : JobRec) (ems : List CsvProgress) (msg : String) : JobRec :=
  let jLast := ((ems.getLast?).map (applyProgress j1)).getD j1
  { jLast with status := JobStatus.failed, completedAt := true, lastError := some msg }

def finalJob (j1 : JobRec) (run : ProcResult) : JobRec :=
  match run.result with
  | Except.ok p => finishOk j1 p
  | Except.error msg => finishFail j1 run.emissions msg

/-- Every successful job.save of one processCsvJob run, in order: the
initial processing save, one save per onProgress emission, and the terminal
save. -/
def jobSaves (j1 : JobRec) (run : ProcResult) : List JobRec :=
  j1 :: run.emissions.map (applyProgress j1) ++ [finalJob j1 run]

/-- Every broadcast of one processCsvJob run, in order: the initial progress
event, one progress event per emission, the terminal progress event, then
the done event of broadcastAndClose. -/
def runEvents (jobId : String) (j1 : JobRec) (run : ProcResult) : List SseEvent :=
  SseEvent.progress jobId (toProgress jobId j1)
    :: run.emissions.map (fun p => SseEvent.progress jobId (toProgress jobId (applyProgress j1 p)))
    ++ [SseEvent.progress jobId (toProgress jobId (finalJob j1 run)),
        SseEvent.done jobId (finalJob j1 run).status]

/-- Whether processCsvJob rethrows (the fatal path). -/
def fatalRun (r : Except String CsvProgress) : Bool :=
  match r with
  | Except.ok _ => false
  | Except.error _ => true

/-- State of the surrounding system: the job store, the record store, the
temp files on disk, and the published events. -/
structure SysState where
  jobs : List (String × JobRec)
  customers : List Customer
  files : List String
  events : List SseEvent

/-- Outcome of one processCsvJob call: resulting system state, the job saves
it performed, and whether it rethrew its error. -/
structure RunOutcome where
  state : SysState
  saves : List JobRec
  threw : Bool

/-- processCsvJob from jobs.service.ts. A missing job only deletes the temp
file (safeDelete swallows unlink failures; on a list of file names deletion
is erase). Otherwise the job is marked processing and saved, processFile
runs with persistProgress as onProgress, the terminal save and events
follow, and the finally block deletes the temp file. -/
def processCsvJob (emailValid : String → Bool) (jobId : String) (filePath : String)
    (file : FileInput) (st : SysState) : RunOutcome :=
  match storeFind st.jobs jobId with
  | none =>
      ⟨{ st with files := st.files.erase filePath }, [], false⟩
  | some j0 =>
      let j1 := startJob j0
      let run := processFileRun emailValid defaultCfg jobId file st.customers
      ⟨{ jobs := storeSave st.jobs jobId (finalJob j1 run),
         customers := run.customers,
         files := st.files.erase filePath,
         events := st.events ++ runEvents jobId j1 run },
       jobSaves j1 run,
       fatalRun run.result⟩

/-! SSE service and the stream controller (sse.service.ts,
jobs.controller.ts). Observer connections are identified by a number; the
registry is the list of (jobId, connection) pairs. -/

def addClient (reg : List (String × Nat)) (jobId : String) (conn : Nat) :
    List (String × Nat) :=
  reg ++ [(jobId, conn)]

/-- What streamJob writes on one observer connection, in order. -/
inductive ConnWrite where
  | retryHint
  | eventProgress (payload : ProgressPayload)
  | eventDone (jobId : String) (status : JobStatus)
  | eventError (message : String)
deriving DecidableEq

def isProgressWrite (w : ConnWrite) : Bool :=
  match w with
  | ConnWrite.eventProgress _ => true
  | _ => false

def isDoneWrite (w : ConnWrite) : Bool :=
  match w with
  | ConnWrite.eventDone _ _ => true
  | _ => false

/-- isTerminal from jobs.controller.ts. -/
def isTerminal (s : JobStatus) : Bool :=
  s = JobStatus.completed || s = JobStatus.failed

structure StreamResult where
  writes : List ConnWrite
  registry : List (String × Nat)
  ended : Bool
deriving DecidableEq

/-- streamJob from jobs.controller.ts, after the id validation: write the
retry hint, look the job up (missing job: error event, end); send the
initial progress snapshot; if the status is terminal send done and end
without registering; otherwise register the connection via addClient. -/
def streamJob (jobId : String) (conn : Nat) (jobOpt : Option JobRec)
    (reg : List (String × Nat)) : StreamResult :=
  match jobOpt with
  | none =>
      ⟨[ConnWrite.retryHint, ConnWrite.eventError "job not found"], reg, true⟩
  | some job =>
      if isTerminal job.status then
        ⟨[ConnWrite.retryHint, ConnWrite.eventProgress (toProgress jobId job),
          ConnWrite.eventDone jobId job.status], reg, true⟩
      else
        ⟨[ConnWrite.retryHint, ConnWrite.eventProgress (toProgress jobId job)],
         addClient reg jobId conn, false⟩

/-! InMemoryJobQueue (src/queue/InMemoryJobQueue.ts), as a small step machine.
The node runtime is single threaded, so enqueue, start, stop and the steps of
the drain loop between two awaits are atomic; the only suspension point is
the awaited worker invocation. A state therefore records the pending queue,
the running and started flags, the invocation in flight, the log of begun
invocations, and the count of returned ones. -/

structure QueueTask where
  jobId : String
  filePath : String
deriving DecidableEq

structure QState where
  queue : List QueueTask
  running : Bool
  started : Bool
  active : Option QueueTask
  invoked : List QueueTask
  finished : Nat
deriving DecidableEq

def qInit : QState :=
  { queue := [], running := false, started := false, active := none,
    invoked := [], finished := 0 }

/-- The head of the drain loop: while started and the queue is non empty,
shift the next task and invoke the worker on it; otherwise leave the loop
and clear the running flag (the finally block). -/
def beginNext (s : QState) : QState :=
  if s.started then
    match s.queue with
    | [] => { s with running := false }
    | t :: rest =>
        { s with queue := rest, active := some t, invoked := s.invoked ++ [t] }
  else { s with running := false }

/-- External events: start and stop, an enqueue, and the return of the
worker invocation in flight (ok false when the worker threw; the loop
catches it and proceeds identically). -/
inductive QEvent where
  | start
  | stop
  | enq (t : QueueTask)
  | finish (ok : Bool)
deriving DecidableEq

/-- One atomic transition. enqueue pushes and calls process, which returns
at once unless started and not running; start calls process the same way;
finish is enabled only while an invocation is in flight and resumes the
loop. -/
def qstep (s : QState) (e : QEvent) : Option QState :=
  match e with
  | QEvent.start =>
      if s.started then some s
      else if s.running then some { s with started := true }
      else some (beginNext { s with started := true, running := true })
  | QEvent.stop => some { s with started := false }
  | QEvent.enq t =>
      if s.started && !s.running then
        some (beginNext { s with queue := s.queue ++ [t], running := true })
      else some { s with queue := s.queue ++ [t] }
  | QEvent.finish _ =>
      match s.active with
      | none => none
      | some _ => some (beginNext { s with active := none, finished := s.finished + 1 })

def qrun (s : QState) (evs : List QEvent) : Option QState :=
  match evs with
  | [] => some s
  | e :: rest =>
      match qstep s e with
      | none => none
      | some s1 => qrun s1 rest

/-- The tasks enqueued by a trace, in order. -/
def enqueuedOf (evs : List QEvent) : List QueueTask :=
  evs.filterMap (fun e =>
    match e with
    | QEvent.enq t => some t
    | _ => none)

/-! Error report filename (jobs.service.ts buildJobErrorReport and
sanitizeFilename). -/

/-- The word characters of the \w character class. -/
def isWordChar (c : Char) : Bool := c.isAlphanum || c = '_'

/-- Characters the sanitize regex [^\w.-]+ leaves untouched. -/
def keepChar (c : Char) : Bool := isWordChar c || c = '.' || c = '-'

/-- Global replacement of a one or more repetition of the complement of
keep by one underscore, scanning left to right: every maximal run of
characters failing keep collapses to a single underscore. The flag records
whether the scan stands inside such a run. -/
def collapseAux (keep : Char → Bool) : Bool → List Char → List Char
  | _, [] => []
  | inRun, c :: cs =>
      if keep c then c :: collapseAux keep false cs
      else if inRun then collapseAux keep true cs
      else '_' :: collapseAux keep true cs

/-- The replacement [^\w.-]+ to underscore of sanitizeFilename. -/
def collapseRuns (s : String) : String := ⟨collapseAux keepChar false s.data⟩

/-- Replacement of the regex \.[^.]+$ by the empty string: drop the final
dot and the non empty run of non dot characters that follows it to the end,
when such a suffix exists. -/
def stripExt (s : String) : String :=
  let rcs := s.data.reverse
  let ext := rcs.takeWhile (fun c => c ≠ '.')
  match rcs.drop ext.length with
  | '.' :: stem => if ext.isEmpty then s else ⟨stem.reverse⟩
  | _ => s

/-- sanitizeFilename from jobs.service.ts. -/
def sanitizeFilename (filename : String) : String :=
  let base := stripExt filename
  let safe := collapseRuns base
  if safe = "" then "job" else safe

/-- The filename buildJobErrorReport attaches to the report:
sanitizeFilename applied to the job filename, with the default base
replacing an empty filename, followed by the _errors.csv suffix. -/
def errorReportFilename (filename : String) : String :=
  sanitizeFilename (if filename = "" then "job" else filename) ++ "_errors.csv"

/-! Specification side definitions for the filename refinement claim. -/

/-- Run collapsing written as a left fold: the accumulator carries the
output so far and whether the scan stands inside a collapsed run. -/
def specCollapseFold (keep : Char → Bool) (s : String) : String :=
  ⟨(s.data.foldl
      (fun acc c =>
        if keep c then (acc.fst ++ [c], false)
        else if acc.snd then acc
        else (acc.fst ++ ['_'], true))
      ([], false)).fst⟩

/-- Modelled from the spec: the report filename as the claim words it, with
the final extension stripped and every maximal run of non word characters
collapsed to one underscore, the empty base falling back to the default
base. -/
def claimReportFilename (filename : String) : String :=
  let base := stripExt filename
  let safe := specCollapseFold isWordChar base
  (if safe = "" then "job" else safe) ++ "_errors.csv"

/-- Modelled from the spec as amended: identical except that dots and
hyphens also survive the collapse (only runs of characters outside word
characters, dots and hyphens become one underscore). -/
def specReportFilename (filename : String) : String :=
  let base := stripExt filename
  let safe := specCollapseFold keepChar base
  (if safe = "" then "job" else safe) ++ "_errors.csv"

/-! Invariants of the processFile loop state. -/

/-- Counter and error list invariant of one progress snapshot. -/
def pInv (cfg : ProcCfg) (p : CsvProgress) : Prop :=
  p.processedRows = p.successCount + p.failedCount ∧
  p.errors.length ≤ cfg.maxErrors ∧
  p.errors.length ≤ p.failedCount ∧
  ∀ e ∈ p.errors, 1 ≤ e.rowNumber

/-- Invariant of the whole loop state: the snapshot invariant for the
current progress and every emission, and the currentRow bookkeeping. -/
def stInv (cfg : ProcCfg) (st : ProcState) : Prop :=
  pInv cfg st.progress ∧ (∀ p ∈ st.emissions, pInv cfg p) ∧
  st.currentRow = st.progress.processedRows + 1

/-! Concrete inputs used by witnesses and counterexamples. -/

/-- A stand in for the external zod email format predicate in concrete
runs. -/
def exEmail : String → Bool := fun s => s.data.contains '@'

def exRawValid : RawRow := ⟨some " Alice ", some " A@B.com ", some "", some "Acme"⟩

def exRawBad : RawRow := ⟨some " ", some "nope", none, some "Acme"⟩

def exFileOk : FileInput :=
  ⟨[⟨exRawValid, InsertOutcome.ok⟩, ⟨exRawBad, InsertOutcome.ok⟩,
    ⟨exRawValid, InsertOutcome.dupKey⟩], none, none⟩

def exFileFatal : FileInput :=
  ⟨[⟨exRawValid, InsertOutcome.ok⟩], none, some (0, "stream destroyed")⟩

def exFileCountFail : FileInput := ⟨[], some "file unreadable", none⟩

def exSys : SysState :=
  ⟨[("job1", pendingJob "data.csv")], [], ["uploads/1_data.csv"], []⟩

/-- Final stored job of the run whose second pass dies before any row. -/
def exFatalFinal : JobRec :=
  (storeFind (processCsvJob exEmail "job1" "uploads/1_data.csv" exFileFatal exSys).state.jobs
    "job1").getD (pendingJob "x")

/-- Final stored job of the run whose first counting pass dies. -/
def exCountFailFinal : JobRec :=
  (storeFind (processCsvJob exEmail "job1" "uploads/1_data.csv" exFileCountFail exSys).state.jobs
    "job1").getD (pendingJob "x")

/-- An already completed job, as an observer may find it. -/
def exDoneJob : JobRec :=
  { filename := "done.csv", status := JobStatus.completed, totalRows := 3,
    processedRows := 3, successCount := 3, failedCount := 0, errors := [],
    lastError := none, startedAt := true, completedAt := true }

def exTaskA : QueueTask := ⟨"A", "up/a.csv"⟩
def exTaskB : QueueTask := ⟨"B", "up/b.csv"⟩
def exTaskC : QueueTask := ⟨"C", "up/c.csv"⟩

/-- Start the queue, enqueue A, B, C, then let the three invocations
return, the first one by throwing. -/
def exQTrace : List QEvent :=
  [QEvent.start, QEvent.enq exTaskA, QEvent.enq exTaskB, QEvent.enq exTaskC,
   QEvent.finish false, QEvent.finish true, QEvent.finish true]

def exQFinal : QState := (qrun qInit exQTrace).getD qInit

/-- A loop state about to handle the first data row of a two row file. -/
def exProcSt : ProcState :=
  { progress := { totalRows := 2, processedRows := 0, successCount := 0,
                  failedCount := 0, errors := [], lastError := none },
    currentRow := 1, customers := [], emissions := [] }

/-- Invariant of the queue machine, tying a state to the list of all tasks
enqueued so far: invocation order is exactly enqueue order (the begun part in
front, the pending part behind), at most one invocation is in flight and a new
one begins only after the previous returned, and an in flight invocation
implies the running flag. -/
def qInv (enq : List QueueTask) (s : QState) : Prop :=
  enq = s.invoked ++ s.queue ∧
  s.invoked.length = s.finished + (if s.active.isSome then 1 else 0) ∧
  (s.active.isSome = true → s.running = true)

/-! General list helpers. -/

theorem getLast_concat_some {α : Type} (l : List α) (a : α) :
    (l ++ [a]).getLast? = some a := by
  rw [show l ++ [a] = l ++ a :: [] from rfl, List.getLast?_append_cons]
  rfl

theorem mem_of_getLast_some {α : Type} {l : List α} {x : α}
    (h : l.getLast? = some x) : x ∈ l := by
  rcases List.mem_getLast?_eq_getLast (l := l) (x := x) h with ⟨hne, hx⟩
  rw [hx]
  exact List.getLast_mem hne

/-! Behaviour of emitProgress. -/

theorem emit_progress_eq (cfg : ProcCfg) (b : Bool) (st : ProcState) :
    (emit cfg b st).progress = st.progress := by
  unfold emit
  split <;> rfl

theorem emit_currentRow_eq (cfg : ProcCfg) (b : Bool) (st : ProcState) :
    (emit cfg b st).currentRow = st.currentRow := by
  unfold emit
  split <;> rfl

theorem emit_customers_eq (cfg : ProcCfg) (b : Bool) (st : ProcState) :
    (emit cfg b st).customers = st.customers := by
  unfold emit
  split <;> rfl

theorem emit_true_emissions (cfg : ProcCfg) (st : ProcState) :
    (emit cfg true st).emissions = st.emissions ++ [st.progress] := by
  unfold emit
  rfl

theorem emit_mem_emissions (cfg : ProcCfg) (b : Bool) (st : ProcState)
    (p : CsvProgress) (h : p ∈ (emit cfg b st).emissions) :
    p ∈ st.emissions ∨ p = st.progress := by
  unfold emit at h
  split at h
  · rcases List.mem_append.mp h with h | h
    · exact Or.inl h
    · simp only [List.mem_singleton] at h
      exact Or.inr h
  · exact Or.inl h

theorem stInv_emit (cfg : ProcCfg) (b : Bool) (st : ProcState)
    (h : stInv cfg st) : stInv cfg (emit cfg b st) := by
  obtain ⟨h1, h2, h3⟩ := h
  refine ⟨?_, ?_, ?_⟩
  · rw [emit_progress_eq]
    exact h1
  · intro p hp
    rcases emit_mem_emissions cfg b st p hp with hp | hp
    · exact h2 p hp
    · rw [hp]
      exact h1
  · rw [emit_progress_eq, emit_currentRow_eq]
    exact h3

/-! Invariant preservation by the loop body. -/

theorem stInv_recordFailure (cfg : ProcCfg) (st : ProcState) (msg : String)
    (payload : ErrRowPayload) (h : stInv cfg st) :
    stInv cfg (recordFailure cfg st msg payload) := by
  obtain ⟨⟨h1, h2, h3, h4⟩, hems, hcr⟩ := h
  unfold recordFailure
  apply stInv_emit
  refine ⟨⟨?_, ?_, ?_, ?_⟩, hems, ?_⟩
  · simp only
    omega
  · simp only
    split
    · simp only [List.length_append, List.length_singleton]
      omega
    · exact h2
  · simp only
    split
    · simp only [List.length_append, List.length_singleton]
      omega
    · omega
  · simp only
    split
    · intro e he
      rcases List.mem_append.mp he with he | he
      · exact h4 e he
      · simp only [List.mem_singleton] at he
        rw [he]
        simp only
        omega
    · intro e he
      exact h4 e he
  · simp only
    omega

theorem stInv_procStep (emailValid : String → Bool) (cfg : ProcCfg) (jobId : String)
    (st : ProcState) (inp : RowInput) (h : stInv cfg st) :
    stInv cfg (procStep emailValid cfg jobId st inp) := by
  obtain ⟨⟨h1, h2, h3, h4⟩, hems, hcr⟩ := h
  unfold procStep
  cases customerRowSchema emailValid (normalizeRow inp.raw) with
  | error issues =>
      exact stInv_recordFailure cfg st _ _ ⟨⟨h1, h2, h3, h4⟩, hems, hcr⟩
  | ok data =>
      cases inp.insert with
      | ok =>
          apply stInv_emit
          refine ⟨⟨?_, h2, h3, h4⟩, hems, ?_⟩
          · simp only
            omega
          · simp only
            omega
      | dupKey =>
          exact stInv_recordFailure cfg st _ _ ⟨⟨h1, h2, h3, h4⟩, hems, hcr⟩
      | dbError =>
          exact stInv_recordFailure cfg st _ _ ⟨⟨h1, h2, h3, h4⟩, hems, hcr⟩

theorem stInv_procLoop (emailValid : String → Bool) (cfg : ProcCfg) (jobId : String)
    (rows : List RowInput) :
    ∀ st : ProcState, stInv cfg st → stInv cfg (procLoop emailValid cfg jobId st rows) := by
  induction rows with
  | nil => intro st h; exact h
  | cons r rs ih =>
      intro st h
      exact ih (procStep emailValid cfg jobId st r) (stInv_procStep emailValid cfg jobId st r h)

/-! Row counting through the loop. -/

theorem recordFailure_processed (cfg : ProcCfg) (st : ProcState) (msg : String)
    (payload : ErrRowPayload) :
    (recordFailure cfg st msg payload).progress.processedRows
      = st.progress.processedRows + 1 := by
  unfold recordFailure
  rw [emit_progress_eq]

theorem recordFailure_total (cfg : ProcCfg) (st : ProcState) (msg : String)
    (payload : ErrRowPayload) :
    (recordFailure cfg st msg payload).progress.totalRows
      = st.progress.totalRows := by
  unfold recordFailure
  rw [emit_progress_eq]

theorem procStep_processed (emailValid : String → Bool) (cfg : ProcCfg) (jobId : String)
    (st : ProcState) (inp : RowInput) :
    (procStep emailValid cfg jobId st inp).progress.processedRows
      = st.progress.processedRows + 1 := by
  unfold procStep
  cases customerRowSchema emailValid (normalizeRow inp.raw) with
  | error issues => exact recordFailure_processed cfg st _ _
  | ok data =>
      cases inp.insert with
      | ok => rw [emit_progress_eq]
      | dupKey => exact recordFailure_processed cfg st _ _
      | dbError => exact recordFailure_processed cfg st _ _

theorem procStep_total (emailValid : String → Bool) (cfg : ProcCfg) (jobId : String)
    (st : ProcState) (inp : RowInput) :
    (procStep emailValid cfg jobId st inp).progress.totalRows
      = st.progress.totalRows := by
  unfold procStep
  cases customerRowSchema emailValid (normalizeRow inp.raw) with
  | error issues => exact recordFailure_total cfg st _ _
  | ok data =>
      cases inp.insert with
      | ok => rw [emit_progress_eq]
      | dupKey => exact recordFailure_total cfg st _ _
      | dbError => exact recordFailure_total cfg st _ _

theorem procLoop_processed (emailValid : String → Bool) (cfg : ProcCfg) (jobId : String)
    (rows : List RowInput) :
    ∀ st : ProcState,
      (procLoop emailValid cfg jobId st rows).progress.processedRows
        = st.progress.processedRows + rows.length := by
  induction rows with
  | nil => intro st; rfl
  | cons r rs ih =>
      intro st
      show (procLoop emailValid cfg jobId (procStep emailValid cfg jobId st r) rs).progress.processedRows = _
      rw [ih, procStep_processed]
      simp only [List.length_cons]
      omega

theorem procLoop_total (emailValid : String → Bool) (cfg : ProcCfg) (jobId : String)
    (rows : List RowInput) :
    ∀ st : ProcState,
      (procLoop emailValid cfg jobId st rows).progress.totalRows
        = st.progress.totalRows := by
  induction rows with
  | nil => intro st; rfl
  | cons r rs ih =>
      intro st
      show (procLoop emailValid cfg jobId (procStep emailValid cfg jobId st r) rs).progress.totalRows = _
      rw [ih, procStep_total]

/-! Equations and invariants of one whole processFile call. -/

theorem stInv_initialState (cfg : ProcCfg) (n : Nat) (cs0 : List Customer) :
    stInv cfg (initialState cfg n cs0) := by
  apply stInv_emit
  refine ⟨⟨rfl, Nat.zero_le _, Nat.le_refl _, ?_⟩, ?_, rfl⟩
  · intro e he
    simp at he
  · intro p hp
    simp at hp

theorem initialState_progress (cfg : ProcCfg) (n : Nat) (cs0 : List Customer) :
    (initialState cfg n cs0).progress
      = { totalRows := n, processedRows := 0, successCount := 0,
          failedCount := 0, errors := [], lastError := none } := by
  unfold initialState
  rw [emit_progress_eq]

theorem processFileRun_countError (emailValid : String → Bool) (cfg : ProcCfg)
    (jobId : String) (file : FileInput) (cs0 : List Customer) (msg : String)
    (h : file.countError = some msg) :
    processFileRun emailValid cfg jobId file cs0 = ⟨[], Except.error msg, cs0⟩ := by
  unfold processFileRun
  rw [h]

theorem processFileRun_clean (emailValid : String → Bool) (cfg : ProcCfg)
    (jobId : String) (file : FileInput) (cs0 : List Customer)
    (h1 : file.countError = none) (h2 : file.streamErrorAfter = none) :
    processFileRun emailValid cfg jobId file cs0
      = runOkBranch emailValid cfg jobId file.rows cs0 := by
  unfold processFileRun
  rw [h1, h2]

theorem processFileRun_streamError (emailValid : String → Bool) (cfg : ProcCfg)
    (jobId : String) (file : FileInput) (cs0 : List Customer) (k : Nat) (msg : String)
    (h1 : file.countError = none) (h2 : file.streamErrorAfter = some (k, msg)) :
    processFileRun emailValid cfg jobId file cs0
      = runErrBranch emailValid cfg jobId file.rows k msg cs0 := by
  unfold processFileRun
  rw [h1, h2]

theorem runOkBranch_result (emailValid : String → Bool) (cfg : ProcCfg) (jobId : String)
    (rows : List RowInput) (cs0 : List Customer) :
    (runOkBranch emailValid cfg jobId rows cs0).result
      = Except.ok (procLoop emailValid cfg jobId (initialState cfg rows.length cs0) rows).progress :=
  rfl

theorem runOkBranch_emissions (emailValid : String → Bool) (cfg : ProcCfg) (jobId : String)
    (rows : List RowInput) (cs0 : List Customer) :
    (runOkBranch emailValid cfg jobId rows cs0).emissions
      = (procLoop emailValid cfg jobId (initialState cfg rows.length cs0) rows).emissions
        ++ [(procLoop emailValid cfg jobId (initialState cfg rows.length cs0) rows).progress] := by
  show (emit cfg true (procLoop emailValid cfg jobId (initialState cfg rows.length cs0) rows)).emissions = _
  rw [emit_true_emissions]

theorem runErrBranch_result (emailValid : String → Bool) (cfg : ProcCfg) (jobId : String)
    (rows : List RowInput) (k : Nat) (msg : String) (cs0 : List Customer) :
    (runErrBranch emailValid cfg jobId rows k msg cs0).result = Except.error msg :=
  rfl

theorem runErrBranch_emissions (emailValid : String → Bool) (cfg : ProcCfg) (jobId : String)
    (rows : List RowInput) (k : Nat) (msg : String) (cs0 : List Customer) :
    (runErrBranch emailValid cfg jobId rows k msg cs0).emissions
      = (procLoop emailValid cfg jobId (initialState cfg rows.length cs0) (rows.take k)).emissions
        ++ [{ (procLoop emailValid cfg jobId (initialState cfg rows.length cs0) (rows.take k)).progress
                with lastError := some msg }] := by
  show (emit cfg true
      { procLoop emailValid cfg jobId (initialState cfg rows.length cs0) (rows.take k) with
          progress := { (procLoop emailValid cfg jobId (initialState cfg rows.length cs0)
                          (rows.take k)).progress with lastError := some msg } }).emissions = _
  rw [emit_true_emissions]

/-- Every snapshot handed to onProgress satisfies the counter and cap
invariant. -/
theorem run_emissions_pInv (emailValid : String → Bool) (cfg : ProcCfg) (jobId : String)
    (file : FileInput) (cs0 : List Customer) :
    ∀ p ∈ (processFileRun emailValid cfg jobId file cs0).emissions, pInv cfg p := by
  cases hc : file.countError with
  | some msg =>
      rw [processFileRun_countError emailValid cfg jobId file cs0 msg hc]
      intro p hp
      simp at hp
  | none =>
      cases hs : file.streamErrorAfter with
      | none =>
          rw [processFileRun_clean emailValid cfg jobId file cs0 hc hs]
          intro p hp
          rw [runOkBranch_emissions] at hp
          have hst := stInv_procLoop emailValid cfg jobId file.rows _
            (stInv_initialState cfg file.rows.length cs0)
          rcases List.mem_append.mp hp with hp | hp
          · exact hst.2.1 p hp
          · simp only [List.mem_singleton] at hp
            rw [hp]
            exact hst.1
      | some km =>
          obtain ⟨k, msg⟩ := km
          rw [processFileRun_streamError emailValid cfg jobId file cs0 k msg hc hs]
          intro p hp
          rw [runErrBranch_emissions] at hp
          have hst := stInv_procLoop emailValid cfg jobId (file.rows.take k) _
            (stInv_initialState cfg file.rows.length cs0)
          rcases List.mem_append.mp hp with hp | hp
          · exact hst.2.1 p hp
          · simp only [List.mem_singleton] at hp
            rw [hp]
            exact ⟨hst.1.1, hst.1.2.1, hst.1.2.2.1, hst.1.2.2.2⟩

/-- The progress processFile returns on the clean path satisfies the
invariant. -/
theorem run_result_pInv (emailValid : String → Bool) (cfg : ProcCfg) (jobId : String)
    (file : FileInput) (cs0 : List Customer) (p : CsvProgress)
    (h : (processFileRun emailValid cfg jobId file cs0).result = Except.ok p) :
    pInv cfg p := by
  cases hc : file.countError with
  | some msg =>
      rw [processFileRun_countError emailValid cfg jobId file cs0 msg hc] at h
      simp at h
  | none =>
      cases hs : file.streamErrorAfter with
      | none =>
          rw [processFileRun_clean emailValid cfg jobId file cs0 hc hs,
              runOkBranch_result] at h
          have hst := stInv_procLoop emailValid cfg jobId file.rows _
            (stInv_initialState cfg file.rows.length cs0)
          cases h
          exact hst.1
      | some km =>
          obtain ⟨k, msg⟩ := km
          rw [processFileRun_streamError emailValid cfg jobId file cs0 k msg hc hs,
              runErrBranch_result] at h
          simp at h

/-- On the clean path every counted data row was processed: the returned
progress has processedRows equal to totalRows. -/
theorem run_result_total (emailValid : String → Bool) (cfg : ProcCfg) (jobId : String)
    (file : FileInput) (cs0 : List Customer) (p : CsvProgress)
    (h : (processFileRun emailValid cfg jobId file cs0).result = Except.ok p) :
    p.processedRows = p.totalRows := by
  cases hc : file.countError with
  | some msg =>
      rw [processFileRun_countError emailValid cfg jobId file cs0 msg hc] at h
      simp at h
  | none =>
      cases hs : file.streamErrorAfter with
      | none =>
          rw [processFileRun_clean emailValid cfg jobId file cs0 hc hs,
              runOkBranch_result] at h
          cases h
          rw [procLoop_processed, procLoop_total, initialState_progress]
          simp
      | some km =>
          obtain ⟨k, msg⟩ := km
          rw [processFileRun_streamError emailValid cfg jobId file cs0 k msg hc hs,
              runErrBranch_result] at h
          simp at h

/-- On the fatal path either nothing was ever emitted (the counting pass
already failed) or the last emission is the forced one of the catch block,
whose processedRows cannot exceed totalRows. -/
theorem run_error_emissions (emailValid : String → Bool) (cfg : ProcCfg) (jobId : String)
    (file : FileInput) (cs0 : List Customer) (msg : String)
    (h : (processFileRun emailValid cfg jobId file cs0).result = Except.error msg) :
    (processFileRun emailValid cfg jobId file cs0).emissions = [] ∨
    ∃ q, (processFileRun emailValid cfg jobId file cs0).emissions.getLast? = some q ∧
         q.processedRows ≤ q.totalRows := by
  cases hc : file.countError with
  | some m =>
      rw [processFileRun_countError emailValid cfg jobId file cs0 m hc]
      exact Or.inl rfl
  | none =>
      cases hs : file.streamErrorAfter with
      | none =>
          rw [processFileRun_clean emailValid cfg jobId file cs0 hc hs,
              runOkBranch_result] at h
          simp at h
      | some km =>
          obtain ⟨k, m⟩ := km
          rw [processFileRun_streamError emailValid cfg jobId file cs0 k m hc hs]
          refine Or.inr
            ⟨{ (procLoop emailValid cfg jobId (initialState cfg file.rows.length cs0)
                  (file.rows.take k)).progress with lastError := some m }, ?_, ?_⟩
          · rw [runErrBranch_emissions]
            exact getLast_concat_some _ _
          · show (procLoop emailValid cfg jobId (initialState cfg file.rows.length cs0)
                (file.rows.take k)).progress.processedRows
              ≤ (procLoop emailValid cfg jobId (initialState cfg file.rows.length cs0)
                (file.rows.take k)).progress.totalRows
            rw [procLoop_processed, procLoop_total, initialState_progress]
            simp only [List.length_take]
            omega

/-! Equations of one whole processCsvJob call. -/

theorem processCsvJob_missing (emailValid : String → Bool) (jobId filePath : String)
    (file : FileInput) (st : SysState) (h : storeFind st.jobs jobId = none) :
    processCsvJob emailValid jobId filePath file st
      = ⟨{ st with files := st.files.erase filePath }, [], false⟩ := by
  unfold processCsvJob
  rw [h]

theorem processCsvJob_found (emailValid : String → Bool) (jobId filePath : String)
    (file : FileInput) (st : SysState) (j0 : JobRec)
    (h : storeFind st.jobs jobId = some j0) :
    processCsvJob emailValid jobId filePath file st =
      ⟨{ jobs := storeSave st.jobs jobId (finalJob (startJob j0)
           (processFileRun emailValid defaultCfg jobId file st.customers)),
         customers := (processFileRun emailValid defaultCfg jobId file st.customers).customers,
         files := st.files.erase filePath,
         events := st.events ++ runEvents jobId (startJob j0)
           (processFileRun emailValid defaultCfg jobId file st.customers) },
       jobSaves (startJob j0) (processFileRun emailValid defaultCfg jobId file st.customers),
       fatalRun (processFileRun emailValid defaultCfg jobId file st.customers).result⟩ := by
  unfold processCsvJob
  rw [h]

theorem storeFind_storeSave (jobs : List (String × JobRec)) (id : String) (j : JobRec) :
    storeFind (storeSave jobs id j) id = some j := by
  induction jobs with
  | nil => simp [storeSave, storeFind, List.find?]
  | cons kv rest ih =>
      by_cases hkv : kv.fst = id
      · simp [storeSave, hkv, storeFind, List.find?]
      · show storeFind (if kv.fst = id then (id, j) :: rest else kv :: storeSave rest id j) id
          = some j
        rw [if_neg hkv]
        simp only [storeFind, List.find?] at ih ⊢
        rw [show (decide (kv.fst = id)) = false by simpa using hkv]
        exact ih

/-- C1: for every job found in the store with coherent counters, every
durable save point of the job document during and after processing
satisfies processedRows = successCount + failedCount. -/
theorem C1_save_points_counter_invariant
    (emailValid : String → Bool) (jobId filePath : String) (file : FileInput)
    (st : SysState) (j0 : JobRec)
    (hfind : storeFind st.jobs jobId = some j0)
    (hinv : j0.processedRows = j0.successCount + j0.failedCount) :
    ∀ j ∈ (processCsvJob emailValid jobId filePath file st).saves,
      j.processedRows = j.successCount + j.failedCount := by
  rw [processCsvJob_found emailValid jobId filePath file st j0 hfind]
  intro j hj
  simp only [jobSaves] at hj
  rcases List.mem_cons.mp hj with hj | hj
  · rw [hj]
    exact hinv
  rcases List.mem_append.mp hj with hj | hj
  · rcases List.mem_map.mp hj with ⟨p, hp, hpj⟩
    have hpi := run_emissions_pInv emailValid defaultCfg jobId file st.customers p hp
    rw [← hpj]
    exact hpi.1
  · simp only [List.mem_singleton] at hj
    rw [hj]
    cases hr : (processFileRun emailValid defaultCfg jobId file st.customers).result with
    | ok p =>
        have hpi := run_result_pInv emailValid defaultCfg jobId file st.customers p hr
        unfold finalJob
        rw [hr]
        exact hpi.1
    | error msg =>
        unfold finalJob
        rw [hr]
        unfold finishFail
        cases hl : (processFileRun emailValid defaultCfg jobId file st.customers).emissions.getLast? with
        | none =>
            simp only [hl, Option.map_none', Option.getD_none]
            exact hinv
        | some q =>
            have hq := mem_of_getLast_some hl
            have hpi := run_emissions_pInv emailValid defaultCfg jobId file st.customers q hq
            simp only [hl, Option.map_some', Option.getD_some]
            exact hpi.1

/-- C1 witness: the invariant instantiated at the terminal save of a
concrete three row run. -/
theorem C1_witness :
    ((processCsvJob exEmail "job1" "uploads/1_data.csv" exFileOk exSys).saves.getD 3
        (pendingJob "x")).processedRows
      = ((processCsvJob exEmail "job1" "uploads/1_data.csv" exFileOk exSys).saves.getD 3
          (pendingJob "x")).successCount
        + ((processCsvJob exEmail "job1" "uploads/1_data.csv" exFileOk exSys).saves.getD 3
            (pendingJob "x")).failedCount :=
  C1_save_points_counter_invariant exEmail "job1" "uploads/1_data.csv" exFileOk exSys
    (pendingJob "data.csv") (by decide) (by decide) _ (by decide)

/-- C5: the retained error record list never grows beyond the cap (the
default 50) at any durable save point, and it never exceeds failedCount,
which counts every failing row and is itself uncapped. -/
theorem C5_error_retention_cap
    (emailValid : String → Bool) (jobId filePath : String) (file : FileInput)
    (st : SysState) (j0 : JobRec)
    (hfind : storeFind st.jobs jobId = some j0)
    (hcap : j0.errors.length ≤ DEFAULT_MAX_ERRORS)
    (hle : j0.errors.length ≤ j0.failedCount) :
    ∀ j ∈ (processCsvJob emailValid jobId filePath file st).saves,
      j.errors.length ≤ DEFAULT_MAX_ERRORS ∧ j.errors.length ≤ j.failedCount := by
  rw [processCsvJob_found emailValid jobId filePath file st j0 hfind]
  intro j hj
  simp only [jobSaves] at hj
  rcases List.mem_cons.mp hj with hj | hj
  · rw [hj]
    exact ⟨hcap, hle⟩
  rcases List.mem_append.mp hj with hj | hj
  · rcases List.mem_map.mp hj with ⟨p, hp, hpj⟩
    have hpi := run_emissions_pInv emailValid defaultCfg jobId file st.customers p hp
    rw [← hpj]
    exact ⟨hpi.2.1, hpi.2.2.1⟩
  · simp only [List.mem_singleton] at hj
    rw [hj]
    cases hr : (processFileRun emailValid defaultCfg jobId file st.customers).result with
    | ok p =>
        have hpi := run_result_pInv emailValid defaultCfg jobId file st.customers p hr
        unfold finalJob
        rw [hr]
        exact ⟨hpi.2.1, hpi.2.2.1⟩
    | error msg =>
        unfold finalJob
        rw [hr]
        unfold finishFail
        cases hl : (processFileRun emailValid defaultCfg jobId file st.customers).emissions.getLast? with
        | none =>
            simp only [hl, Option.map_none', Option.getD_none]
            exact ⟨hcap, hle⟩
        | some q =>
            have hq := mem_of_getLast_some hl
            have hpi := run_emissions_pInv emailValid defaultCfg jobId file st.customers q hq
            simp only [hl, Option.map_some', Option.getD_some]
            exact ⟨hpi.2.1, hpi.2.2.1⟩

/-- C5 witness: the cap statement instantiated at the terminal save of a
concrete run with two failing rows. -/
theorem C5_witness :
    ((processCsvJob exEmail "job1" "uploads/1_data.csv" exFileOk exSys).saves.getD 3
        (pendingJob "x")).errors.length ≤ DEFAULT_MAX_ERRORS
    ∧ ((processCsvJob exEmail "job1" "uploads/1_data.csv" exFileOk exSys).saves.getD 3
        (pendingJob "x")).errors.length
      ≤ ((processCsvJob exEmail "job1" "uploads/1_data.csv" exFileOk exSys).saves.getD 3
          (pendingJob "x")).failedCount :=
  C5_error_retention_cap exEmail "job1" "uploads/1_data.csv" exFileOk exSys
    (pendingJob "data.csv") (by decide) (by decide) (by decide) _ (by decide)

/-- C2 counterexample: a second pass stream failure before any row leaves
a terminal (failed) job whose processedRows differs from totalRows, so the
claim as stated fails for failed jobs. -/
theorem C2_counterexample :
    isTerminal exFatalFinal.status = true
    ∧ exFatalFinal.processedRows ≠ exFatalFinal.totalRows := by
  decide

/-- C2 as amended: a completed job has processedRows = totalRows; a failed
job only satisfies processedRows ≤ totalRows (the rows processed before the
fatal error). -/
theorem C2_amended_terminal_row_accounting
    (emailValid : String → Bool) (jobId filePath : String) (file : FileInput)
    (st : SysState) (j0 : JobRec)
    (hfind : storeFind st.jobs jobId = some j0)
    (hle : j0.processedRows ≤ j0.totalRows)
    (f : JobRec)
    (hf : storeFind (processCsvJob emailValid jobId filePath file st).state.jobs jobId
        = some f) :
    (f.status = JobStatus.completed → f.processedRows = f.totalRows)
    ∧ (f.status = JobStatus.failed → f.processedRows ≤ f.totalRows) := by
  rw [processCsvJob_found emailValid jobId filePath file st j0 hfind] at hf
  simp only at hf
  rw [storeFind_storeSave] at hf
  cases hf
  cases hr : (processFileRun emailValid defaultCfg jobId file st.customers).result with
  | ok p =>
      constructor
      · intro hstat
        have ht := run_result_total emailValid defaultCfg jobId file st.customers p hr
        unfold finalJob
        rw [hr]
        exact ht
      · intro hstat
        unfold finalJob at hstat
        rw [hr] at hstat
        exact absurd hstat (by simp [finishOk, applyProgress])
  | error msg =>
      constructor
      · intro hstat
        unfold finalJob at hstat
        rw [hr] at hstat
        exact absurd hstat (by simp [finishFail])
      · intro hstat
        unfold finalJob
        rw [hr]
        unfold finishFail
        cases hl : (processFileRun emailValid defaultCfg jobId file st.customers).emissions.getLast? with
        | none =>
            simp only [hl, Option.map_none', Option.getD_none]
            exact hle
        | some q =>
            rcases run_error_emissions emailValid defaultCfg jobId file st.customers msg hr with
              hemp | ⟨q2, hq2, hq2le⟩
            · rw [hemp] at hl
              simp at hl
            · rw [hq2] at hl
              cases hl
              simp only [hq2, Option.map_some', Option.getD_some]
              exact hq2le

/-- C2 witness: the amended statement instantiated at a clean three row
run, whose final job is completed with processedRows = totalRows. -/
theorem C2_witness :
    (((storeFind (processCsvJob exEmail "job1" "uploads/1_data.csv" exFileOk exSys).state.jobs
          "job1").getD (pendingJob "x")).status = JobStatus.completed →
      ((storeFind (processCsvJob exEmail "job1" "uploads/1_data.csv" exFileOk exSys).state.jobs
          "job1").getD (pendingJob "x")).processedRows
        = ((storeFind (processCsvJob exEmail "job1" "uploads/1_data.csv" exFileOk exSys).state.jobs
            "job1").getD (pendingJob "x")).totalRows)
    ∧ (((storeFind (processCsvJob exEmail "job1" "uploads/1_data.csv" exFileOk exSys).state.jobs
          "job1").getD (pendingJob "x")).status = JobStatus.failed →
      ((storeFind (processCsvJob exEmail "job1" "uploads/1_data.csv" exFileOk exSys).state.jobs
          "job1").getD (pendingJob "x")).processedRows
        ≤ ((storeFind (processCsvJob exEmail "job1" "uploads/1_data.csv" exFileOk exSys).state.jobs
            "job1").getD (pendingJob "x")).totalRows) :=
  C2_amended_terminal_row_accounting exEmail "job1" "uploads/1_data.csv" exFileOk exSys
    (pendingJob "data.csv") (by decide) (by decide) _ (by decide)

/-- C6 counterexample: a fatal first pass failure terminalizes the job as
failed with completedAt set, yet the persisted error list stays empty: no
row-number-0 error record is appended; the fatal cause lands in lastError
only. -/
theorem C6_counterexample :
    exCountFailFinal.status = JobStatus.failed
    ∧ exCountFailFinal.completedAt = true
    ∧ exCountFailFinal.errors = []
    ∧ exCountFailFinal.lastError = some "file unreadable" := by
  decide

/-- C6 as amended: on any fatal error the job is set to failed with
completedAt set and the fatal cause recorded in lastError (no row-number-0
error record is appended: every retained record keeps a positive row
number), the state is flushed as the last save, and a progress event
followed by the terminal failed event is published. -/
theorem C6_amended_fatal_terminalization
    (emailValid : String → Bool) (jobId filePath : String) (file : FileInput)
    (st : SysState) (j0 : JobRec) (msg : String)
    (hfind : storeFind st.jobs jobId = some j0)
    (hrow : ∀ er ∈ j0.errors, er.rowNumber ≠ 0)
    (hfatal : (processFileRun emailValid defaultCfg jobId file st.customers).result
        = Except.error msg) :
    ∃ f, storeFind (processCsvJob emailValid jobId filePath file st).state.jobs jobId = some f
      ∧ f.status = JobStatus.failed
      ∧ f.completedAt = true
      ∧ f.lastError = some msg
      ∧ (∀ er ∈ f.errors, er.rowNumber ≠ 0)
      ∧ (processCsvJob emailValid jobId filePath file st).saves.getLast? = some f
      ∧ (∃ pre, (processCsvJob emailValid jobId filePath file st).state.events
            = pre ++ [SseEvent.progress jobId (toProgress jobId f),
                      SseEvent.done jobId JobStatus.failed])
      ∧ (processCsvJob emailValid jobId filePath file st).threw = true := by
  rw [processCsvJob_found emailValid jobId filePath file st j0 hfind]
  refine ⟨finalJob (startJob j0) (processFileRun emailValid defaultCfg jobId file st.customers),
    ?_, ?_, ?_, ?_, ?_, ?_, ?_, ?_⟩
  · simp only
    rw [storeFind_storeSave]
  · unfold finalJob
    rw [hfatal]
    rfl
  · unfold finalJob
    rw [hfatal]
    rfl
  · unfold finalJob
    rw [hfatal]
    rfl
  · unfold finalJob
    rw [hfatal]
    unfold finishFail
    cases hl : (processFileRun emailValid defaultCfg jobId file st.customers).emissions.getLast? with
    | none =>
        simp only [hl, Option.map_none', Option.getD_none]
        exact hrow
    | some q =>
        have hq := mem_of_getLast_some hl
        have hpi := run_emissions_pInv emailValid defaultCfg jobId file st.customers q hq
        simp only [hl, Option.map_some', Option.getD_some]
        intro er her
        have := hpi.2.2.2 er her
        omega
  · simp only [jobSaves]
    rw [show (startJob j0 :: (processFileRun emailValid defaultCfg jobId file
          st.customers).emissions.map (applyProgress (startJob j0))
        ++ [finalJob (startJob j0) (processFileRun emailValid defaultCfg jobId file st.customers)])
      = (startJob j0 :: (processFileRun emailValid defaultCfg jobId file
          st.customers).emissions.map (applyProgress (startJob j0)))
        ++ [finalJob (startJob j0) (processFileRun emailValid defaultCfg jobId file st.customers)]
      from by simp]
    exact getLast_concat_some _ _
  · refine ⟨st.events ++ (SseEvent.progress jobId (toProgress jobId (startJob j0))
      :: (processFileRun emailValid defaultCfg jobId file st.customers).emissions.map
          (fun p => SseEvent.progress jobId (toProgress jobId (applyProgress (startJob j0) p)))), ?_⟩
    simp only [runEvents]
    have hstat : (finalJob (startJob j0)
        (processFileRun emailValid defaultCfg jobId file st.customers)).status
        = JobStatus.failed := by
      unfold finalJob
      rw [hfatal]
      rfl
    rw [hstat]
    simp [List.append_assoc]
  · simp only [fatalRun]
    rw [hfatal]

/-- C6 witness: the amended statement instantiated at a run whose counting
pass fails. -/
theorem C6_amended_witness :
    ∃ f, storeFind (processCsvJob exEmail "job1" "uploads/1_data.csv" exFileCountFail
          exSys).state.jobs "job1" = some f
      ∧ f.status = JobStatus.failed
      ∧ f.completedAt = true
      ∧ f.lastError = some "file unreadable"
      ∧ (∀ er ∈ f.errors, er.rowNumber ≠ 0)
      ∧ (processCsvJob exEmail "job1" "uploads/1_data.csv" exFileCountFail exSys).saves.getLast?
          = some f
      ∧ (∃ pre, (processCsvJob exEmail "job1" "uploads/1_data.csv" exFileCountFail
            exSys).state.events
            = pre ++ [SseEvent.progress "job1" (toProgress "job1" f),
                      SseEvent.done "job1" JobStatus.failed])
      ∧ (processCsvJob exEmail "job1" "uploads/1_data.csv" exFileCountFail exSys).threw = true :=
  C6_amended_fatal_terminalization exEmail "job1" "uploads/1_data.csv" exFileCountFail exSys
    (pendingJob "data.csv") "file unreadable" (by decide) (by decide) (by decide)

/-- C10: invoking the importer on a jobId absent from the job store writes
nothing to the job or record store, publishes no events, performs no job
save, rethrows nothing, and still deletes the source file from temporary
storage. -/
theorem C10_missing_job_frame
    (emailValid : String → Bool) (jobId filePath : String) (file : FileInput)
    (st : SysState)
    (h : storeFind st.jobs jobId = none) :
    (processCsvJob emailValid jobId filePath file st).state.jobs = st.jobs
    ∧ (processCsvJob emailValid jobId filePath file st).state.customers = st.customers
    ∧ (processCsvJob emailValid jobId filePath file st).state.events = st.events
    ∧ (processCsvJob emailValid jobId filePath file st).saves = []
    ∧ (processCsvJob emailValid jobId filePath file st).threw = false
    ∧ (processCsvJob emailValid jobId filePath file st).state.files
        = st.files.erase filePath := by
  rw [processCsvJob_missing emailValid jobId filePath file st h]
  exact ⟨rfl, rfl, rfl, rfl, rfl, rfl⟩

/-- C10 witness: a jobId the store does not hold, over a store holding one
other job. -/
theorem C10_witness :
    (processCsvJob exEmail "ghost" "uploads/1_data.csv" exFileOk exSys).state.jobs = exSys.jobs
    ∧ (processCsvJob exEmail "ghost" "uploads/1_data.csv" exFileOk exSys).state.customers
        = exSys.customers
    ∧ (processCsvJob exEmail "ghost" "uploads/1_data.csv" exFileOk exSys).state.events
        = exSys.events
    ∧ (processCsvJob exEmail "ghost" "uploads/1_data.csv" exFileOk exSys).saves = []
    ∧ (processCsvJob exEmail "ghost" "uploads/1_data.csv" exFileOk exSys).threw = false
    ∧ (processCsvJob exEmail "ghost" "uploads/1_data.csv" exFileOk exSys).state.files
        = exSys.files.erase "uploads/1_data.csv" :=
  C10_missing_job_frame exEmail "ghost" "uploads/1_data.csv" exFileOk exSys (by decide)

/-! Field equations of recordFailure, for the per row failure claim. -/

theorem recordFailure_failedCount (cfg : ProcCfg) (st : ProcState) (msg : String)
    (payload : ErrRowPayload) :
    (recordFailure cfg st msg payload).progress.failedCount
      = st.progress.failedCount + 1 := by
  unfold recordFailure
  rw [emit_progress_eq]

theorem recordFailure_successCount (cfg : ProcCfg) (st : ProcState) (msg : String)
    (payload : ErrRowPayload) :
    (recordFailure cfg st msg payload).progress.successCount
      = st.progress.successCount := by
  unfold recordFailure
  rw [emit_progress_eq]

theorem recordFailure_customers (cfg : ProcCfg) (st : ProcState) (msg : String)
    (payload : ErrRowPayload) :
    (recordFailure cfg st msg payload).customers = st.customers := by
  unfold recordFailure
  rw [emit_customers_eq]

theorem recordFailure_errors_below_cap (cfg : ProcCfg) (st : ProcState) (msg : String)
    (payload : ErrRowPayload) (h : st.progress.errors.length < cfg.maxErrors) :
    (recordFailure cfg st msg payload).progress.errors
      = st.progress.errors ++ [⟨st.currentRow, msg, some payload⟩] := by
  unfold recordFailure
  rw [emit_progress_eq]
  simp only
  rw [if_pos h]

/-- C3: a valid row whose insert fails bumps failedCount and processedRows
by one, leaves successCount and the record store unchanged, and (below the
retention cap) appends an error record whose message is exactly the
uniqueness wording for a duplicate key and exactly the generic insert
wording otherwise. -/
theorem C3_insert_failure_handling
    (emailValid : String → Bool) (cfg : ProcCfg) (jobId : String)
    (st : ProcState) (inp : RowInput) (data : CustomerRow)
    (hv : customerRowSchema emailValid (normalizeRow inp.raw) = Except.ok data)
    (hf : inp.insert ≠ InsertOutcome.ok) :
    (procStep emailValid cfg jobId st inp).progress.failedCount
        = st.progress.failedCount + 1
    ∧ (procStep emailValid cfg jobId st inp).progress.processedRows
        = st.progress.processedRows + 1
    ∧ (procStep emailValid cfg jobId st inp).progress.successCount
        = st.progress.successCount
    ∧ (procStep emailValid cfg jobId st inp).customers = st.customers
    ∧ (inp.insert = InsertOutcome.dupKey → st.progress.errors.length < cfg.maxErrors →
        (procStep emailValid cfg jobId st inp).progress.errors
          = st.progress.errors ++ [⟨st.currentRow, "email must be unique",
              some (ErrRowPayload.parsedRow data)⟩])
    ∧ (inp.insert = InsertOutcome.dbError → st.progress.errors.length < cfg.maxErrors →
        (procStep emailValid cfg jobId st inp).progress.errors
          = st.progress.errors ++ [⟨st.currentRow, "failed to insert customer",
              some (ErrRowPayload.parsedRow data)⟩]) := by
  unfold procStep
  rw [hv]
  cases hins : inp.insert with
  | ok => exact absurd hins hf
  | dupKey =>
      refine ⟨recordFailure_failedCount cfg st _ _, recordFailure_processed cfg st _ _,
        recordFailure_successCount cfg st _ _, recordFailure_customers cfg st _ _, ?_, ?_⟩
      · intro _ hcap
        exact recordFailure_errors_below_cap cfg st _ _ hcap
      · intro hcon _
        exact absurd hcon (by decide)
  | dbError =>
      refine ⟨recordFailure_failedCount cfg st _ _, recordFailure_processed cfg st _ _,
        recordFailure_successCount cfg st _ _, recordFailure_customers cfg st _ _, ?_, ?_⟩
      · intro hcon _
        exact absurd hcon (by decide)
      · intro _ hcap
        exact recordFailure_errors_below_cap cfg st _ _ hcap

/-- C3 witness: a duplicate key insert failure on a concrete valid row. -/
theorem C3_witness :
    (procStep exEmail defaultCfg "job1" exProcSt ⟨exRawValid, InsertOutcome.dupKey⟩).progress.failedCount
        = exProcSt.progress.failedCount + 1
    ∧ (procStep exEmail defaultCfg "job1" exProcSt ⟨exRawValid, InsertOutcome.dupKey⟩).progress.processedRows
        = exProcSt.progress.processedRows + 1
    ∧ (procStep exEmail defaultCfg "job1" exProcSt ⟨exRawValid, InsertOutcome.dupKey⟩).progress.successCount
        = exProcSt.progress.successCount
    ∧ (procStep exEmail defaultCfg "job1" exProcSt ⟨exRawValid, InsertOutcome.dupKey⟩).customers
        = exProcSt.customers
    ∧ ((⟨exRawValid, InsertOutcome.dupKey⟩ : RowInput).insert = InsertOutcome.dupKey →
        exProcSt.progress.errors.length < defaultCfg.maxErrors →
        (procStep exEmail defaultCfg "job1" exProcSt ⟨exRawValid, InsertOutcome.dupKey⟩).progress.errors
          = exProcSt.progress.errors ++ [⟨exProcSt.currentRow, "email must be unique",
              some (ErrRowPayload.parsedRow ⟨"Alice", "a@b.com", "", "Acme"⟩)⟩])
    ∧ ((⟨exRawValid, InsertOutcome.dupKey⟩ : RowInput).insert = InsertOutcome.dbError →
        exProcSt.progress.errors.length < defaultCfg.maxErrors →
        (procStep exEmail defaultCfg "job1" exProcSt ⟨exRawValid, InsertOutcome.dupKey⟩).progress.errors
          = exProcSt.progress.errors ++ [⟨exProcSt.currentRow, "failed to insert customer",
              some (ErrRowPayload.parsedRow ⟨"Alice", "a@b.com", "", "Acme"⟩)⟩]) :=
  C3_insert_failure_handling exEmail defaultCfg "job1" exProcSt
    ⟨exRawValid, InsertOutcome.dupKey⟩ ⟨"Alice", "a@b.com", "", "Acme"⟩ (by decide) (by decide)

/-! Validator facts for the phone claim. -/

theorem customerRowSchema_ok_data (emailValid : String → Bool) (r : CustomerRow)
    (data : CustomerRow) (h : customerRowSchema emailValid r = Except.ok data) :
    data = ⟨jsTrim r.name, jsTrim r.email, r.phone, jsTrim r.company⟩ := by
  unfold customerRowSchema at h
  split at h
  · cases h
    rfl
  · cases h

theorem customerRowSchema_ok_of_issues (emailValid : String → Bool) (r : CustomerRow)
    (h : (schemaIssues emailValid r).isEmpty = true) :
    customerRowSchema emailValid r
      = Except.ok ⟨jsTrim r.name, jsTrim r.email, r.phone, jsTrim r.company⟩ := by
  unfold customerRowSchema
  rw [if_pos h]

theorem customerRowSchema_issues_of_ok (emailValid : String → Bool) (r : CustomerRow)
    (data : CustomerRow) (h : customerRowSchema emailValid r = Except.ok data) :
    (schemaIssues emailValid r).isEmpty = true := by
  unfold customerRowSchema at h
  split at h
  · assumption
  · cases h

/-- C8: the phone field never contributes a validation failure (any value in
the phone position leaves the row valid), and the customer built from a
valid row carries no phone exactly when the trimmed input phone is empty,
the trimmed value itself otherwise; a persisted phone is never the empty
string. -/
theorem C8_phone_normalization
    (emailValid : String → Bool) (jobId : String) (raw : RawRow) (data : CustomerRow)
    (hv : customerRowSchema emailValid (normalizeRow raw) = Except.ok data) :
    (∀ p, ∃ d, customerRowSchema emailValid (normalizeRow { raw with phone := p })
        = Except.ok d)
    ∧ (jsTrim (raw.phone.getD "") = "" → (mkCustomer jobId data).phone = none)
    ∧ (jsTrim (raw.phone.getD "") ≠ "" →
        (mkCustomer jobId data).phone = some (jsTrim (raw.phone.getD "")))
    ∧ (mkCustomer jobId data).phone ≠ some "" := by
  have hdata := customerRowSchema_ok_data emailValid (normalizeRow raw) data hv
  have hiss := customerRowSchema_issues_of_ok emailValid (normalizeRow raw) data hv
  refine ⟨?_, ?_, ?_, ?_⟩
  · intro p
    refine ⟨⟨jsTrim (normalizeRow { raw with phone := p }).name,
             jsTrim (normalizeRow { raw with phone := p }).email,
             (normalizeRow { raw with phone := p }).phone,
             jsTrim (normalizeRow { raw with phone := p }).company⟩, ?_⟩
    apply customerRowSchema_ok_of_issues
    exact hiss
  · intro hem
    rw [hdata]
    show (if jsTrim (raw.phone.getD "") = "" then none
          else some (jsTrim (raw.phone.getD ""))) = (none : Option String)
    rw [if_pos hem]
  · intro hem
    rw [hdata]
    show (if jsTrim (raw.phone.getD "") = "" then none
          else some (jsTrim (raw.phone.getD ""))) = some (jsTrim (raw.phone.getD ""))
    rw [if_neg hem]
  · rw [hdata]
    show (if jsTrim (raw.phone.getD "") = "" then none
          else some (jsTrim (raw.phone.getD ""))) ≠ some ""
    by_cases hem : jsTrim (raw.phone.getD "") = ""
    · rw [if_pos hem]
      simp
    · rw [if_neg hem]
      simp only [ne_eq, Option.some.injEq]
      exact hem

/-- C8 witness: a concrete valid row whose phone field is present but
empty. -/
theorem C8_witness :
    (∀ p, ∃ d, customerRowSchema exEmail (normalizeRow { exRawValid with phone := p })
        = Except.ok d)
    ∧ (jsTrim (exRawValid.phone.getD "") = ""
        → (mkCustomer "job1" ⟨"Alice", "a@b.com", "", "Acme"⟩).phone = none)
    ∧ (jsTrim (exRawValid.phone.getD "") ≠ ""
        → (mkCustomer "job1" ⟨"Alice", "a@b.com", "", "Acme"⟩).phone
            = some (jsTrim (exRawValid.phone.getD "")))
    ∧ (mkCustomer "job1" ⟨"Alice", "a@b.com", "", "Acme"⟩).phone ≠ some "" :=
  C8_phone_normalization exEmail "job1" exRawValid ⟨"Alice", "a@b.com", "", "Acme"⟩ (by decide)

/-- C7 counterexample: an observer attaching to an already completed job
does receive one progress event (the initial snapshot) before the terminal
event, so the claim that it receives no progress events fails. -/
theorem C7_counterexample :
    isTerminal exDoneJob.status = true
    ∧ (streamJob "job1" 0 (some exDoneJob) []).writes.countP (fun w => isProgressWrite w) ≠ 0 := by
  decide

/-- C7 as amended: an observer attaching to a terminal job receives the
retry hint, exactly one initial progress snapshot, then exactly one
terminal event as the last write, the connection is ended, and the observer
is never added to the registry. -/
theorem C7_amended_terminal_attach
    (jobId : String) (conn : Nat) (reg : List (String × Nat)) (job : JobRec)
    (h : isTerminal job.status = true) :
    (streamJob jobId conn (some job) reg).writes
        = [ConnWrite.retryHint, ConnWrite.eventProgress (toProgress jobId job),
           ConnWrite.eventDone jobId job.status]
    ∧ (streamJob jobId conn (some job) reg).writes.countP (fun w => isDoneWrite w) = 1
    ∧ (streamJob jobId conn (some job) reg).writes.countP (fun w => isProgressWrite w) = 1
    ∧ (streamJob jobId conn (some job) reg).writes.getLast?
        = some (ConnWrite.eventDone jobId job.status)
    ∧ (streamJob jobId conn (some job) reg).registry = reg
    ∧ (streamJob jobId conn (some job) reg).ended = true := by
  simp only [streamJob]
  rw [if_pos h]
  exact ⟨rfl, rfl, rfl, rfl, rfl, rfl⟩

/-- C7 witness: the amended statement at a concrete completed job. -/
theorem C7_witness :
    (streamJob "job1" 0 (some exDoneJob) []).writes
        = [ConnWrite.retryHint, ConnWrite.eventProgress (toProgress "job1" exDoneJob),
           ConnWrite.eventDone "job1" exDoneJob.status]
    ∧ (streamJob "job1" 0 (some exDoneJob) []).writes.countP (fun w => isDoneWrite w) = 1
    ∧ (streamJob "job1" 0 (some exDoneJob) []).writes.countP (fun w => isProgressWrite w) = 1
    ∧ (streamJob "job1" 0 (some exDoneJob) []).writes.getLast?
        = some (ConnWrite.eventDone "job1" exDoneJob.status)
    ∧ (streamJob "job1" 0 (some exDoneJob) []).registry = []
    ∧ (streamJob "job1" 0 (some exDoneJob) []).ended = true :=
  C7_amended_terminal_attach "job1" 0 [] exDoneJob (by decide)

/-! Run collapsing: the recursive scan agrees with the fold form. -/

theorem collapse_foldl (keep : Char → Bool) (l : List Char) :
    ∀ (acc : List Char) (b : Bool),
      (l.foldl
        (fun acc c =>
          if keep c then (acc.fst ++ [c], false)
          else if acc.snd then acc
          else (acc.fst ++ ['_'], true))
        (acc, b)).fst
      = acc ++ collapseAux keep b l := by
  induction l with
  | nil =>
      intro acc b
      simp [collapseAux]
  | cons c cs ih =>
      intro acc b
      simp only [List.foldl_cons]
      by_cases hk : keep c
      · simp only [hk, if_true]
        rw [ih]
        simp [collapseAux, hk]
      · by_cases hb : b
        · simp only [hk, if_false, hb, if_true]
          rw [ih]
          simp [collapseAux, hk, hb]
        · simp only [hk, hb, if_false]
          rw [ih]
          simp [collapseAux, hk, hb]

theorem collapseRuns_eq_fold (s : String) :
    collapseRuns s = specCollapseFold keepChar s := by
  unfold collapseRuns specCollapseFold
  rw [collapse_foldl keepChar s.data [] false]
  simp

/-- C9 counterexample: the sanitize regex keeps dots and hyphens, so a
hyphenated source filename refutes the claim that every non word run
collapses to an underscore. -/
theorem C9_counterexample :
    errorReportFilename "my-file.csv" = "my-file_errors.csv"
    ∧ claimReportFilename "my-file.csv" = "my_file_errors.csv"
    ∧ errorReportFilename "my-file.csv" ≠ claimReportFilename "my-file.csv" := by
  decide

/-- C9 as amended: the report filename equals the source filename with its
final extension stripped and every maximal run of characters other than
word characters, dots and hyphens collapsed to one underscore (dots and
hyphens are preserved), the empty base falling back to the default base,
followed by the _errors.csv suffix. -/
theorem C9_amended_report_filename (filename : String) :
    errorReportFilename filename = specReportFilename filename := by
  by_cases h : filename = ""
  · rw [h]
    decide
  · simp only [errorReportFilename, specReportFilename, sanitizeFilename, if_neg h,
      collapseRuns_eq_fold]

/-! Queue machine invariants. -/

theorem beginNext_qInv (enq : List QueueTask) (s : QState)
    (hA : s.active = none) (h1 : enq = s.invoked ++ s.queue)
    (h2 : s.invoked.length = s.finished) (hR : s.running = true) :
    qInv enq (beginNext s) := by
  unfold beginNext
  by_cases hst : s.started
  · rw [if_pos hst]
    cases hq : s.queue with
    | nil =>
        refine ⟨?_, ?_, ?_⟩
        · simp only
          rw [h1, hq]
        · simp only [hA, Option.isSome_none, if_neg]
          simpa using h2
        · simp only [hA, Option.isSome_none]
          intro hx
          cases hx
    | cons t rest =>
        refine ⟨?_, ?_, ?_⟩
        · simp only
          rw [h1, hq]
          simp
        · simp only [Option.isSome_some, if_pos, List.length_append,
            List.length_singleton]
          omega
        · intro _
          simp only
          exact hR
  · rw [if_neg hst]
    refine ⟨?_, ?_, ?_⟩
    · exact h1
    · simp only [hA, Option.isSome_none]
      simpa using h2
    · simp only [hA, Option.isSome_none]
      intro hx
      cases hx

theorem qstep_qInv (enq : List QueueTask) (s : QState) (e : QEvent) (s1 : QState)
    (hstep : qstep s e = some s1) (hI : qInv enq s) :
    qInv (enq ++ enqueuedOf [e]) s1 := by
  obtain ⟨h1, h2, h3⟩ := hI
  have hActOfRun : s.running = false → s.active = none := by
    intro hr
    cases ha : s.active with
    | none => rfl
    | some a =>
        have := h3 (by rw [ha]; rfl)
        rw [this] at hr
        cases hr
  cases e with
  | start =>
      simp only [enqueuedOf, List.filterMap, List.append_nil]
      simp only [qstep] at hstep
      by_cases hst : s.started
      · rw [if_pos hst] at hstep
        cases hstep
        exact ⟨h1, h2, h3⟩
      · rw [if_neg hst] at hstep
        by_cases hr : s.running
        · rw [if_pos hr] at hstep
          cases hstep
          exact ⟨h1, h2, h3⟩
        · rw [if_neg hr] at hstep
          cases hstep
          have hA := hActOfRun (by simpa using hr)
          apply beginNext_qInv
          · exact hA
          · exact h1
          · rw [hA] at h2
            simpa using h2
          · rfl
  | stop =>
      simp only [enqueuedOf, List.filterMap, List.append_nil]
      simp only [qstep] at hstep
      cases hstep
      exact ⟨h1, h2, h3⟩
  | enq t =>
      have henq : enqueuedOf [QEvent.enq t] = [t] := rfl
      rw [henq]
      simp only [qstep] at hstep
      by_cases hcond : s.started && !s.running
      · rw [if_pos hcond] at hstep
        cases hstep
        have hr : s.running = false := by
          have hco := hcond
          simp only [Bool.and_eq_true, Bool.not_eq_true'] at hco
          exact hco.2
        have hA := hActOfRun hr
        apply beginNext_qInv
        · exact hA
        · simp only
          rw [h1]
          simp
        · rw [hA] at h2
          simpa using h2
        · rfl
      · rw [if_neg hcond] at hstep
        cases hstep
        refine ⟨?_, h2, h3⟩
        simp only
        rw [h1]
        simp
  | finish ok =>
      simp only [enqueuedOf, List.filterMap, List.append_nil]
      simp only [qstep] at hstep
      cases ha : s.active with
      | none =>
          rw [ha] at hstep
          cases hstep
      | some a =>
          rw [ha] at hstep
          cases hstep
          apply beginNext_qInv
          · rfl
          · exact h1
          · rw [ha] at h2
            simp only [Option.isSome_some, if_pos] at h2
            simpa using h2
          · exact h3 (by rw [ha]; rfl)

theorem enqueuedOf_cons (e : QEvent) (evs : List QEvent) :
    enqueuedOf (e :: evs) = enqueuedOf [e] ++ enqueuedOf evs := by
  cases e <;> simp [enqueuedOf, List.filterMap]

theorem qrun_qInv (evs : List QEvent) :
    ∀ (enq : List QueueTask) (s0 s : QState),
      qrun s0 evs = some s → qInv enq s0 → qInv (enq ++ enqueuedOf evs) s := by
  induction evs with
  | nil =>
      intro enq s0 s h hI
      cases h
      simpa [enqueuedOf] using hI
  | cons e rest ih =>
      intro enq s0 s h hI
      unfold qrun at h
      cases hstep : qstep s0 e with
      | none =>
          rw [hstep] at h
          cases h
      | some s1 =>
          rw [hstep] at h
          have hI1 := qstep_qInv enq s0 e s1 hstep hI
          have hI2 := ih (enq ++ enqueuedOf [e]) s1 s h hI1
          rw [enqueuedOf_cons, ← List.append_assoc]
          exact hI2

/-- C4: from the idle started queue, any event trace keeps the invocation
log an initial segment of the enqueue order with the pending queue as the rest (FIFO,
nothing skipped or reordered), keeps at most one invocation in flight (the
log exceeds the count of returned invocations by at most the one in
flight), implies the running flag while an invocation is in flight, and
when an invocation is in flight with pending tasks, its return, thrown
failure included, immediately begins exactly the next pending task. -/
theorem C4_queue_fifo_sequential (evs : List QEvent) (s : QState)
    (h : qrun qInit evs = some s) :
    enqueuedOf evs = s.invoked ++ s.queue
    ∧ s.invoked.length = s.finished + (if s.active.isSome then 1 else 0)
    ∧ (s.active.isSome = true → s.running = true)
    ∧ (∀ ok t rest, s.active.isSome = true → s.started = true → s.queue = t :: rest →
        ∃ s2, qstep s (QEvent.finish ok) = some s2
          ∧ s2.invoked = s.invoked ++ [t] ∧ s2.queue = rest ∧ s2.active = some t) := by
  have hI := qrun_qInv evs [] qInit s h ⟨rfl, rfl, by intro hx; cases hx⟩
  rw [List.nil_append] at hI
  obtain ⟨h1, h2, h3⟩ := hI
  refine ⟨h1, h2, h3, ?_⟩
  intro ok t rest hact hst hq
  cases ha : s.active with
  | none =>
      rw [ha] at hact
      cases hact
  | some a =>
      refine ⟨beginNext { s with active := none, finished := s.finished + 1 }, ?_, ?_, ?_, ?_⟩
      · unfold qstep
        rw [ha]
      · unfold beginNext
        simp only [hst, if_true, hq]
      · unfold beginNext
        simp only [hst, if_true, hq]
      · unfold beginNext
        simp only [hst, if_true, hq]

/-- C4 witness: starting the queue, enqueuing A, B, C and letting the three
invocations return, the first by throwing, invokes exactly A, B, C in
order. -/
theorem C4_witness :
    enqueuedOf exQTrace = exQFinal.invoked ++ exQFinal.queue
    ∧ exQFinal.invoked.length
        = exQFinal.finished + (if exQFinal.active.isSome then 1 else 0)
    ∧ (exQFinal.active.isSome = true → exQFinal.running = true)
    ∧ (∀ ok t rest, exQFinal.active.isSome = true → exQFinal.started = true →
        exQFinal.queue = t :: rest →
        ∃ s2, qstep exQFinal (QEvent.finish ok) = some s2
          ∧ s2.invoked = exQFinal.invoked ++ [t] ∧ s2.queue = rest ∧ s2.active = some t) :=
  C4_queue_fifo_sequential exQTrace exQFinal (by decide)

end CsvService
